import Mathlib

/-!
# Shallow embedding of the Facebook-ads analytics pipeline (`src/server.js`)

This file embeds the aggregation and idempotent-write pipeline of
`server.js` into Lean 4 and proves the specification claims about it.

Modelling choices, stated once here:

* JavaScript numbers are modelled as `Option ℚ`: `some q` is the finite
  value `q`, `none` models a non-finite value (`NaN`, which arises from
  `parseFloat`/`parseInt` on a string without a numeric prefix, and which
  propagates through `+`, `/`, `*`).  Floating-point rounding is not
  modelled: the spec's data model declares the metrics "decimal"/"integer".
* `parseFloat`/`parseInt` are modelled for decimal notation (optional
  leading whitespace, optional sign, digits, and for `parseFloat` an
  optional fractional part).  Exponent notation, hexadecimal prefixes and
  the literal `Infinity` are not modelled; no claim involves them.
* The JS regex `/Funnel\s*(\d+)/i` is modelled by a scan over the
  character list that tries every start position left to right, exactly as
  the regex engine does; `\s` is modelled by the six ASCII whitespace
  characters and `\d` by `0`-`9` (as in JS).
* JS objects used as maps (`funnelData`, `campaignMap`) are modelled as
  association lists updated in place; every claim below is stated through
  key lookup, membership or emptiness, which are invariant under the
  key-reordering JS applies in `Object.values`.
* The Supabase table is modelled as a list of rows; `upsert` with
  `onConflict: 'start_date,end_date,funnel_id'` replaces every row with
  the conflicting key (the table's uniqueness constraint guarantees there
  is at most one) or appends the row.
-/

/-- A JavaScript number: `some q` is a finite value, `none` models a
non-finite value (`NaN`; also the result of a division by zero, which no
guarded division in the source reaches). -/
abbrev JsNum := Option ℚ

/-- JS addition: `NaN` propagates. -/
def jsAdd (a b : JsNum) : JsNum :=
  match a, b with
  | some x, some y => some (x + y)
  | _, _ => none

/-- JS multiplication: `NaN` propagates. -/
def jsMul (a b : JsNum) : JsNum :=
  match a, b with
  | some x, some y => some (x * y)
  | _, _ => none

/-- JS division: `NaN` propagates; division by zero gives a non-finite
value (the source only divides under a `> 0` guard on the divisor). -/
def jsDiv (a b : JsNum) : JsNum :=
  match a, b with
  | some x, some y => if y = 0 then none else some (x / y)
  | _, _ => none

/-- The JS comparison `x > 0`: false on `NaN`. -/
def jsGtZero (a : JsNum) : Bool :=
  match a with
  | some x => decide (0 < x)
  | none => false

/-- Sum of a list of JS numbers, folded left like the source's `+=` loop. -/
def jsSum (l : List JsNum) : JsNum := l.foldl jsAdd (some 0)

/-- The six ASCII characters matched by the JS regex class `\s`
(space, tab, line feed, vertical tab, form feed, carriage return). -/
def isJsWs (c : Char) : Bool :=
  c = ' ' || c = '\t' || c = '\n' || c = '\x0b' || c = '\x0c' || c = '\r'

/-- Digit value of an ASCII digit character. -/
def digitVal (c : Char) : ℕ := c.toNat - '0'.toNat

/-- Value of a digit string read left to right. -/
def digitsToNat (ds : List Char) : ℕ := ds.foldl (fun n c => 10 * n + digitVal c) 0

/-- Value of the fractional digits following the decimal point. -/
def fracVal (ds : List Char) : ℚ := (digitsToNat ds : ℚ) / ((10 : ℚ) ^ ds.length)

/-- Model of `parseFloat` on a character list: skip leading whitespace, optional
sign, integer digits, optional `.` and fractional digits; `NaN` (`none`)
when no digit is found. -/
def jsParseFloatChars (l : List Char) : JsNum :=
  let l1 := l.dropWhile isJsWs
  let sgn : Bool × List Char :=
    match l1 with
    | '-' :: r => (true, r)
    | '+' :: r => (false, r)
    | _ => (false, l1)
  let ip := sgn.2.takeWhile Char.isDigit
  let l3 := sgn.2.dropWhile Char.isDigit
  let mag : JsNum :=
    match l3 with
    | '.' :: r =>
      let fp := r.takeWhile Char.isDigit
      if ip.isEmpty && fp.isEmpty then none
      else some ((digitsToNat ip : ℚ) + fracVal fp)
    | _ => if ip.isEmpty then none else some (digitsToNat ip : ℚ)
  match mag with
  | some m => some (if sgn.1 then -m else m)
  | none => none

/-- Model of `parseInt` (base 10) on a character list: skip leading whitespace,
optional sign, integer digits; `NaN` (`none`) when no digit is found. -/
def jsParseIntChars (l : List Char) : JsNum :=
  let l1 := l.dropWhile isJsWs
  let sgn : Bool × List Char :=
    match l1 with
    | '-' :: r => (true, r)
    | '+' :: r => (false, r)
    | _ => (false, l1)
  let ip := sgn.2.takeWhile Char.isDigit
  if ip.isEmpty then none
  else some (if sgn.1 then -(digitsToNat ip : ℚ) else (digitsToNat ip : ℚ))

/-- The source expression `parseFloat(v || 0)`: an absent field or the
empty string is falsy and yields `0`; otherwise the string is parsed. -/
def parseFloatField (v : Option String) : JsNum :=
  match v with
  | none => some 0
  | some s => if s = "" then some 0 else jsParseFloatChars s.toList

/-- The source expression `parseInt(v || 0)`: an absent field or the
empty string is falsy and yields `0`; otherwise the string is parsed. -/
def parseIntField (v : Option String) : JsNum :=
  match v with
  | none => some 0
  | some s => if s = "" then some 0 else jsParseIntChars s.toList

/-! ## The funnel classifier: `campaignName.match(/Funnel\s*(\d+)/i)` -/

/-- The lowercase token the regex literal `Funnel` matches case-insensitively. -/
def funnelTok : List Char := ['f', 'u', 'n', 'n', 'e', 'l']

/-- Case-insensitively strip a lowercase token from the front of a list;
returns the remainder on success. -/
def ciStrip : List Char → List Char → Option (List Char)
  | [], l => some l
  | _ :: _, [] => none
  | t :: ts, c :: cs => if c.toLower = t then ciStrip ts cs else none

/-- Try the regex `Funnel\s*(\d+)` (case-insensitive) anchored at the head
of the list; returns the captured digit group on success.  `\s*` is greedy
and `\d+` requires at least one digit, so the attempt succeeds exactly when
a digit follows the whitespace run after the token. -/
def tryMatchAt (l : List Char) : Option (List Char) :=
  match ciStrip funnelTok l with
  | none => none
  | some rest =>
    let rest2 := rest.dropWhile isJsWs
    let ds := rest2.takeWhile Char.isDigit
    if ds.isEmpty then none else some ds

/-- The regex engine's left-to-right scan: first start position at which
`tryMatchAt` succeeds wins. -/
def findFunnel : List Char → Option (List Char)
  | [] => none
  | c :: cs =>
    match tryMatchAt (c :: cs) with
    | some ds => some ds
    | none => findFunnel cs

/-- The source's `funnelId`: the captured digit group of the first match,
or the literal `"unknown"` when the regex does not match. -/
def extractFunnelId (name : String) : String :=
  match findFunnel name.toList with
  | some ds => String.mk ds
  | none => "unknown"

example : extractFunnelId "Spring Funnel 3 Retargeting" = "3" := by decide
example : extractFunnelId "Brand Awareness" = "unknown" := by decide
example : extractFunnelId "FUNNEL7" = "7" := by decide
example : extractFunnelId "Funnel 007" = "007" := by decide
example : jsParseFloatChars "abc".toList = none := by decide
example : jsParseFloatChars "12.5".toList = some (25 / 2) := by with_unfolding_all decide
example : jsParseIntChars "12.9".toList = some 12 := by with_unfolding_all decide
example : jsAdd (some 1) none = none := by decide

/-! ## The data model: insights, campaigns, accumulators, rows -/

/-- One record of the campaigns listing (`fields: 'id,name,status'`); the
status plays no role in the aggregation. -/
structure CampaignRef where
  id : String
  name : String
deriving DecidableEq

/-- One insight record at campaign level.  Every field the aggregation
reads is a possibly-absent string, exactly as delivered by the API
(`none` models an absent property). -/
structure Insight where
  campaign_id : String
  campaign_name : Option String
  spend : Option String
  impressions : Option String
  reach : Option String
  clicks : Option String
deriving DecidableEq

/-- The lookup `campaignMap[insight.campaign_id]` where `campaignMap` was
filled by `forEach` assignment: a later entry with the same id overwrites
an earlier one, so the last matching campaign wins. -/
def campaignMapLookup (cs : List CampaignRef) (cid : String) : Option String :=
  (cs.reverse.find? (fun c => decide (c.id = cid))).map (·.name)

/-- The source expression
`insight.campaign_name || campaignMap[insight.campaign_id] || 'Unknown Campaign'`:
each step falls through on an absent value or the (falsy) empty string. -/
def resolveName (cs : List CampaignRef) (i : Insight) : String :=
  let fb :=
    match campaignMapLookup cs i.campaign_id with
    | some n => if n = "" then "Unknown Campaign" else n
    | none => "Unknown Campaign"
  match i.campaign_name with
  | some n => if n = "" then fb else n
  | none => fb

/-- The per-campaign detail pushed onto `funnel.campaigns` (removed again
before persisting). -/
structure CampaignDetail where
  campaign_id : String
  campaign_name : String
  spend : JsNum
  impressions : JsNum
  clicks : JsNum
deriving DecidableEq

/-- The in-progress funnel accumulator, as initialized in the fold
(`frequency` starts at `0`; `campaigns` collects per-campaign detail). -/
structure FunnelAcc where
  funnel_id : String
  funnel_name : String
  start_date : String
  end_date : String
  amount_spent : JsNum
  impressions : JsNum
  reach : JsNum
  ads_link_clicks : JsNum
  frequency : JsNum
  campaigns : List CampaignDetail
deriving DecidableEq

/-- The initializer `funnelData[funnelId] = { funnel_id, funnel_name, dates, zeros, [] }`. -/
def initAcc (fid sd ed : String) : FunnelAcc :=
  { funnel_id := fid
    funnel_name := "Funnel #" ++ fid
    start_date := sd
    end_date := ed
    amount_spent := some 0
    impressions := some 0
    reach := some 0
    ads_link_clicks := some 0
    frequency := some 0
    campaigns := [] }

/-- Fold one insight into an accumulator: the four `+=` lines plus the
`campaigns.push` of the source loop body. -/
def addInsight (name : String) (i : Insight) (a : FunnelAcc) : FunnelAcc :=
  { a with
    amount_spent := jsAdd a.amount_spent (parseFloatField i.spend)
    impressions := jsAdd a.impressions (parseIntField i.impressions)
    reach := jsAdd a.reach (parseIntField i.reach)
    ads_link_clicks := jsAdd a.ads_link_clicks (parseIntField i.clicks)
    campaigns := a.campaigns ++
      [{ campaign_id := i.campaign_id
         campaign_name := name
         spend := parseFloatField i.spend
         impressions := parseIntField i.impressions
         clicks := parseIntField i.clicks }] }

/-- Apply `f` to the (first) entry with the given key of an association
list, in place. -/
def applyAt (m : List (String × FunnelAcc)) (fid : String) (f : FunnelAcc → FunnelAcc) :
    List (String × FunnelAcc) :=
  match m with
  | [] => []
  | (k, a) :: rest => if k = fid then (k, f a) :: rest else (k, a) :: applyAt rest fid f

/-- Whether the map already has an entry for the key
(`if (!funnelData[funnelId])` in the source). -/
def hasKey (m : List (String × FunnelAcc)) (fid : String) : Bool :=
  m.any (fun p => decide (p.1 = fid))

/-- First lookup in the association map. -/
def lookupAcc (m : List (String × FunnelAcc)) (fid : String) : Option FunnelAcc :=
  (m.find? (fun p => decide (p.1 = fid))).map (·.2)

/-- One iteration of `for (const insight of campaignData)`: resolve the
name, classify, initialize the bucket if needed, fold the insight in. -/
def foldStep (cs : List CampaignRef) (sd ed : String)
    (m : List (String × FunnelAcc)) (i : Insight) : List (String × FunnelAcc) :=
  let name := resolveName cs i
  let fid := extractFunnelId name
  if hasKey m fid then applyAt m fid (addInsight name i)
  else m ++ [(fid, addInsight name i (initAcc fid sd ed))]

/-- The whole grouping loop over the insight records. -/
def aggregateRaw (cs : List CampaignRef) (sd ed : String) (insights : List Insight) :
    List (String × FunnelAcc) :=
  insights.foldl (foldStep cs sd ed) []

/-- The persisted row shape: after finalization `campaigns` is deleted,
`link_ctr` exists only when it was assigned, and `is_current_week` is
added by the writer (absent until then). -/
structure FunnelRow where
  funnel_id : String
  funnel_name : String
  start_date : String
  end_date : String
  amount_spent : JsNum
  impressions : JsNum
  reach : JsNum
  ads_link_clicks : JsNum
  frequency : JsNum
  link_ctr : Option JsNum
  is_current_week : Option Bool
deriving DecidableEq

/-- The `Calculate aggregate metrics` loop body for one funnel:
`frequency` is overwritten only when `reach > 0`; `link_ctr` is assigned
only when `impressions > 0`; `campaigns` is deleted. -/
def finalize (a : FunnelAcc) : FunnelRow :=
  { funnel_id := a.funnel_id
    funnel_name := a.funnel_name
    start_date := a.start_date
    end_date := a.end_date
    amount_spent := a.amount_spent
    impressions := a.impressions
    reach := a.reach
    ads_link_clicks := a.ads_link_clicks
    frequency := if jsGtZero a.reach then jsDiv a.impressions a.reach else a.frequency
    link_ctr :=
      if jsGtZero a.impressions then some (jsMul (jsDiv a.ads_link_clicks a.impressions) (some 100))
      else none
    is_current_week := none }

/-- The successful path of `fetchFacebookAdData` from the fetched campaign list
and insight list to the returned `Object.values(funnelData)` (stated up to
the key reordering `Object.values` applies, which no claim observes). -/
def fetchRows (cs : List CampaignRef) (insights : List Insight) (sd ed : String) :
    List FunnelRow :=
  (aggregateRaw cs sd ed insights).map (fun p => finalize p.2)

/-! ## The store and the writer -/

/-- The uniqueness key `onConflict: 'start_date,end_date,funnel_id'`. -/
def rowKey (r : FunnelRow) : String × String × String :=
  (r.start_date, r.end_date, r.funnel_id)

/-- The stamp `funnelData.is_current_week = true` before the upsert. -/
def stampRow (r : FunnelRow) : FunnelRow :=
  { r with is_current_week := some true }

/-- The store's upsert: replace the row holding the conflicting key (the
table's uniqueness constraint keeps at most one), else insert. -/
def upsertRow (store : List FunnelRow) (r : FunnelRow) : List FunnelRow :=
  if store.any (fun x => decide (rowKey x = rowKey r)) then
    store.map (fun x => if rowKey x = rowKey r then r else x)
  else store ++ [r]

/-- Number of store rows holding a given key. -/
def keyCount (store : List FunnelRow) (k : String × String × String) : ℕ :=
  (store.filter (fun r => decide (rowKey r = k))).length

/-- One write of `saveFunnelData`'s loop body: stamp, then upsert. -/
def writeRow (store : List FunnelRow) (r : FunnelRow) : List FunnelRow :=
  upsertRow store (stampRow r)

/-- Model of `saveFunnelData`: the early return on an empty array, then one upsert
per row. -/
def saveFunnelData (store : List FunnelRow) (rows : List FunnelRow) : List FunnelRow :=
  if rows.isEmpty then store else rows.foldl writeRow store

/-! ## The orchestrator, endpoints and the account listing -/

/-- One record of the `me/adaccounts` listing. -/
structure Account where
  id : String
  name : String
  account_status : ℤ
deriving DecidableEq

/-- Strip the first occurrence of a pattern from a character list
(JS `String.prototype.replace` with a string pattern). -/
def removeFirstOcc (pat : List Char) : List Char → List Char
  | [] => []
  | c :: cs =>
    match (pat : List Char).isPrefixOf? (c :: cs) with
    | some _ => (c :: cs).drop pat.length
    | none => c :: removeFirstOcc pat cs

/-- The id handed to `fetchFacebookAdData`:
`` `act_${account.id.replace('act_', '')}` ``. -/
def accountParam (a : Account) : String :=
  "act_" ++ String.mk (removeFirstOcc "act_".toList a.id.toList)

/-- Outcome of the two axios reads of `fetchFacebookAdData` for one
account: either a transport/API error, or the campaign and insight
arrays. -/
structure CycleEnv where
  accountsRaw : Except String (Option (List Account))
  insightsRaw : String → Except String (List CampaignRef × List Insight)
  startDateStr : String
  endDate : String

/-- Model of `getAdAccounts`: the whole body is inside `try`/`catch`; an error or a
missing `data.data` both end in `return []`, so the function is total. -/
def getAdAccountsT (raw : Except String (Option (List Account))) : List Account :=
  match raw with
  | .ok (some l) => l
  | .ok none => []
  | .error _ => []

/-- Model of `fetchFacebookAdData`: the whole body is inside `try`/`catch`; any
transport or API error ends in `return []`. -/
def fetchFacebookAdDataT (env : CycleEnv) (aid : String) : List FunnelRow :=
  match env.insightsRaw aid with
  | .error _ => []
  | .ok (cs, insights) => fetchRows cs insights env.startDateStr env.endDate

/-- One iteration of the orchestrator's account loop: skip an account
whose status is not `1`, else fetch and save. -/
def processAccount (env : CycleEnv) (store : List FunnelRow) (a : Account) : List FunnelRow :=
  if a.account_status ≠ 1 then store
  else saveFunnelData store (fetchFacebookAdDataT env (accountParam a))

/-- Model of `processFacebookData`: list accounts (total), return early when none,
else loop over the accounts.  The surrounding `try`/`catch` only logs, so
the function always returns a store. -/
def processFacebookDataT (env : CycleEnv) (store : List FunnelRow) : List FunnelRow :=
  let adAccounts := getAdAccountsT env.accountsRaw
  if adAccounts.isEmpty then store
  else adAccounts.foldl (processAccount env) store

/-- The `POST /sync-facebook-data` handler: `try { await
processFacebookData(); res.json({success:true,...}) } catch { 500 }`.
The awaited call never rejects (its own `catch` swallows every failure),
which the `Except.ok` wrapping records; the `.error` arm is the handler's
500 branch. -/
def syncEndpoint (env : CycleEnv) (store : List FunnelRow) : ℕ × Bool × List FunnelRow :=
  match (Except.ok (processFacebookDataT env store) : Except String (List FunnelRow)) with
  | .ok s => (200, true, s)
  | .error _ => (500, false, store)

/-- The `GET /test-facebook-connection` handler: `try { await
getAdAccounts(); res.json({success:true,...}) } catch { 500 }`.  The
awaited call never rejects, which the `Except.ok` wrapping records. -/
def testConnectionEndpoint (raw : Except String (Option (List Account))) :
    ℕ × Bool × List Account :=
  match (Except.ok (getAdAccountsT raw) : Except String (List Account)) with
  | .ok accts => (200, true, accts)
  | .error _ => (500, false, [])

/-! ## Derived notions used to state the claims -/

/-- Whether an insight record is classified into the given funnel id. -/
def matchesFid (cs : List CampaignRef) (fid : String) (i : Insight) : Bool :=
  decide (extractFunnelId (resolveName cs i) = fid)

/-- The four summed metrics of an accumulator. -/
def accTotals (a : FunnelAcc) : JsNum × JsNum × JsNum × JsNum :=
  (a.amount_spent, a.impressions, a.reach, a.ads_link_clicks)

/-- Add one insight's parsed field values to a quadruple of totals. -/
def addContrib (t : JsNum × JsNum × JsNum × JsNum) (i : Insight) :
    JsNum × JsNum × JsNum × JsNum :=
  (jsAdd t.1 (parseFloatField i.spend),
   jsAdd t.2.1 (parseIntField i.impressions),
   jsAdd t.2.2.1 (parseIntField i.reach),
   jsAdd t.2.2.2 (parseIntField i.clicks))

/-- The all-zero totals a fresh accumulator starts from. -/
def zeroTotals : JsNum × JsNum × JsNum × JsNum :=
  (some 0, some 0, some 0, some 0)

/-- Every character is regex whitespace. -/
def AllJsWs (ws : List Char) : Prop := ∀ c ∈ ws, isJsWs c = true

/-- Every character is a decimal digit. -/
def AllDigits (ds : List Char) : Prop := ∀ c ∈ ds, c.isDigit = true

/-- The token equals `funnel` up to (ASCII) case. -/
def CiFunnel (tok : List Char) : Prop := tok.map Char.toLower = funnelTok

/-- The spec's match condition: somewhere in the name, the token
`Funnel` (case-insensitively) is followed by optional whitespace and one
or more digits. -/
def HasFunnelMatch (l : List Char) : Prop :=
  ∃ pre tok ws ds rest,
    l = pre ++ tok ++ ws ++ ds ++ rest ∧ CiFunnel tok ∧ AllJsWs ws ∧
    ds ≠ [] ∧ AllDigits ds

/-- The digit group `ds` occurs as a full (greedily captured) digit run
right after a case-insensitive `Funnel` token and optional whitespace. -/
def CapturedMatch (l ds : List Char) : Prop :=
  ∃ pre tok ws rest,
    l = pre ++ tok ++ ws ++ ds ++ rest ∧ CiFunnel tok ∧ AllJsWs ws ∧
    ds ≠ [] ∧ AllDigits ds ∧ ∀ c cs, rest = c :: cs → c.isDigit = false

/-! # Claim theorems -/

/-- C10: the account-listing operation is total — on any error it returns
the empty list instead of throwing — so the connectivity-check endpoint's
500 branch is unreachable and the endpoint always responds 200 with
success `true`, even when the remote API is unreachable. -/
theorem getAdAccounts_total_test_endpoint_ok :
    (∀ raw, testConnectionEndpoint raw = (200, true, getAdAccountsT raw)) ∧
    (∀ e, getAdAccountsT (Except.error e) = []) :=
  ⟨fun _ => rfl, fun _ => rfl⟩

/-- C6 (amended): the manual-trigger endpoint always responds 200 with the
structured success payload, whether the cycle succeeded or failed, because
the cycle routine catches every failure internally and only logs it; the
endpoint's 500 branch is unreachable. -/
theorem syncEndpoint_always_200 :
    ∀ env store, syncEndpoint env store = (200, true, processFacebookDataT env store) :=
  fun _ _ => rfl

/-- C6, counterexample to the claim as stated: a cycle whose account
listing fails with a transport error (a failing cycle that performs no
work) is still answered with status 200 and success `true`, not 500. -/
theorem syncEndpoint_failed_cycle_still_200 :
    syncEndpoint
      ⟨Except.error "network down", fun _ => Except.error "network down",
        "2026-10-04", "2026-10-11"⟩ [] = (200, true, []) := rfl

/-- C8, counterexample to the claim as stated: an account window with zero
campaigns but one insight record produces one accumulator, not zero. -/
theorem zero_campaigns_some_insights_produces_row :
    (fetchRows []
        [⟨"c9", some "Funnel 5", some "2", some "10", some "5", some "1"⟩]
        "2026-10-04" "2026-10-11").length = 1 ∧ (1 : ℕ) ≠ 0 :=
  ⟨rfl, by decide⟩

/-- C8 (amended): an active account whose window has zero insight records
yields zero accumulators and zero store writes, for any campaign list.
(Zero campaigns alone does not suffice: see the counterexample.) -/
theorem zero_insights_zero_rows_zero_writes (env : CycleEnv) (store : List FunnelRow)
    (a : Account) (cs : List CampaignRef)
    (h : env.insightsRaw (accountParam a) = Except.ok (cs, [])) :
    fetchRows cs [] env.startDateStr env.endDate = [] ∧
    fetchFacebookAdDataT env (accountParam a) = [] ∧
    processAccount env store a = store := by
  have hfetch : fetchFacebookAdDataT env (accountParam a) = [] := by
    unfold fetchFacebookAdDataT
    rw [h]
    rfl
  refine ⟨rfl, hfetch, ?_⟩
  unfold processAccount
  rw [hfetch]
  split <;> rfl

/-- Witness for the amended C8 theorem at a concrete environment. -/
theorem zero_insights_zero_rows_zero_writes_witness :
    fetchFacebookAdDataT
      ⟨Except.ok (some [⟨"act_1", "A", 1⟩]), fun _ => Except.ok ([⟨"c1", "Brand"⟩], []),
        "2026-10-04", "2026-10-11"⟩ (accountParam ⟨"act_1", "A", 1⟩) = [] ∧
    processAccount
      ⟨Except.ok (some [⟨"act_1", "A", 1⟩]), fun _ => Except.ok ([⟨"c1", "Brand"⟩], []),
        "2026-10-04", "2026-10-11"⟩ [] ⟨"act_1", "A", 1⟩ = [] := by
  have h := zero_insights_zero_rows_zero_writes
    ⟨Except.ok (some [⟨"act_1", "A", 1⟩]), fun _ => Except.ok ([⟨"c1", "Brand"⟩], []),
      "2026-10-04", "2026-10-11"⟩ [] ⟨"act_1", "A", 1⟩ [⟨"c1", "Brand"⟩] rfl
  exact ⟨h.2.1, h.2.2⟩

/-- C9: the captured digit sequence is used verbatim, without numeric
normalization: "Funnel 007" and "Funnel 7" classify to the distinct
funnel ids "007" and "7", and two such campaigns fold into two distinct
accumulators with distinct `FunnelKey`s. -/
theorem leading_zeros_distinct_buckets :
    extractFunnelId "Funnel 007" = "007" ∧
    extractFunnelId "Funnel 7" = "7" ∧
    (fetchRows []
        [⟨"a", some "Funnel 007", some "1", some "1", some "1", some "1"⟩,
         ⟨"b", some "Funnel 7", some "1", some "1", some "1", some "1"⟩]
        "2026-10-04" "2026-10-11").map rowKey =
      [("2026-10-04", "2026-10-11", "007"), ("2026-10-04", "2026-10-11", "7")] ∧
    ("007" : String) ≠ "7" := by
  refine ⟨by decide, by decide, ?_, by decide⟩
  rfl

/-- C7: a transport or API error while fetching one account yields an
empty result set for that account (zero accumulators, hence zero writes)
and the rest of the cycle proceeds exactly as if that account did nothing:
the final store is the fold over the remaining accounts. -/
theorem fetch_error_isolated (env : CycleEnv) (store : List FunnelRow)
    (pre post : List Account) (bad : Account) (err : String)
    (hacc : getAdAccountsT env.accountsRaw = pre ++ bad :: post)
    (hfail : env.insightsRaw (accountParam bad) = Except.error err) :
    fetchFacebookAdDataT env (accountParam bad) = [] ∧
    processAccount env store bad = store ∧
    processFacebookDataT env store = (pre ++ post).foldl (processAccount env) store := by
  have hfetch : fetchFacebookAdDataT env (accountParam bad) = [] := by
    unfold fetchFacebookAdDataT
    rw [hfail]
  have hpa : ∀ st, processAccount env st bad = st := by
    intro st
    unfold processAccount
    rw [hfetch]
    split <;> rfl
  refine ⟨hfetch, hpa store, ?_⟩
  have hne : (pre ++ bad :: post).isEmpty = false := by
    simp [List.isEmpty_iff]
  unfold processFacebookDataT
  simp only [hacc, hne, Bool.false_eq_true, if_false, List.foldl_append, List.foldl_cons, hpa]

/-- Witness for the C7 theorem at a concrete environment whose single
account's fetch fails. -/
theorem fetch_error_isolated_witness :
    fetchFacebookAdDataT
      ⟨Except.ok (some [⟨"act_9", "Bad", 1⟩]), fun _ => Except.error "timeout",
        "2026-10-04", "2026-10-11"⟩ (accountParam ⟨"act_9", "Bad", 1⟩) = [] ∧
    processAccount
      ⟨Except.ok (some [⟨"act_9", "Bad", 1⟩]), fun _ => Except.error "timeout",
        "2026-10-04", "2026-10-11"⟩ [] ⟨"act_9", "Bad", 1⟩ = [] ∧
    processFacebookDataT
      ⟨Except.ok (some [⟨"act_9", "Bad", 1⟩]), fun _ => Except.error "timeout",
        "2026-10-04", "2026-10-11"⟩ [] =
      (([] : List Account) ++ []).foldl
        (processAccount
          ⟨Except.ok (some [⟨"act_9", "Bad", 1⟩]), fun _ => Except.error "timeout",
            "2026-10-04", "2026-10-11"⟩) [] :=
  fetch_error_isolated _ [] [] [] ⟨"act_9", "Bad", 1⟩ "timeout" rfl rfl

/-! ## Lemmas about the writer -/

theorem rowKey_stampRow (r : FunnelRow) : rowKey (stampRow r) = rowKey r := rfl

theorem replaceByKey_key_pred (r : FunnelRow) :
    (fun x => decide (rowKey x = rowKey r)) ∘ (fun x => if rowKey x = rowKey r then r else x) =
      fun x => decide (rowKey x = rowKey r) := by
  funext x
  by_cases h : rowKey x = rowKey r <;> simp [h]

theorem upsertRow_spec (store : List FunnelRow) (r : FunnelRow)
    (h : keyCount store (rowKey r) ≤ 1) :
    (upsertRow store r).filter (fun x => decide (rowKey x = rowKey r)) = [r] ∧
    (upsertRow store r).filter (fun x => !decide (rowKey x = rowKey r)) =
      store.filter (fun x => !decide (rowKey x = rowKey r)) ∧
    store.length ≤ (upsertRow store r).length ∧
    keyCount (upsertRow store r) (rowKey r) = 1 := by
  by_cases hany : store.any (fun x => decide (rowKey x = rowKey r)) = true
  · have hcnt : keyCount store (rowKey r) = 1 := by
      rcases List.any_eq_true.mp hany with ⟨x, hx, hpx⟩
      have hmem : x ∈ store.filter (fun x => decide (rowKey x = rowKey r)) :=
        List.mem_filter.mpr ⟨hx, hpx⟩
      have h1 : 1 ≤ keyCount store (rowKey r) := by
        have := List.length_pos.mpr (List.ne_nil_of_mem hmem)
        exact this
      omega
    have hup : upsertRow store r = store.map (fun x => if rowKey x = rowKey r then r else x) := by
      unfold upsertRow
      rw [if_pos hany]
    rcases List.length_eq_one.mp hcnt with ⟨x0, hx0⟩
    have hx0key : decide (rowKey x0 = rowKey r) = true := by
      have : x0 ∈ store.filter (fun x => decide (rowKey x = rowKey r)) := by
        rw [hx0]; exact List.mem_singleton_self x0
      exact (List.mem_filter.mp this).2
    have hfk : (upsertRow store r).filter (fun x => decide (rowKey x = rowKey r)) = [r] := by
      rw [hup, List.filter_map, replaceByKey_key_pred, hx0]
      simp only [List.map_cons, List.map_nil]
      rw [if_pos (of_decide_eq_true hx0key)]
    refine ⟨hfk, ?_, ?_, ?_⟩
    · rw [hup, List.filter_map]
      have hpred : (fun x => !decide (rowKey x = rowKey r)) ∘
          (fun x => if rowKey x = rowKey r then r else x) =
          fun x => !decide (rowKey x = rowKey r) := by
        funext x
        by_cases hx : rowKey x = rowKey r <;> simp [hx]
      rw [hpred]
      have hid : List.map (fun x => if rowKey x = rowKey r then r else x)
          (store.filter (fun x => !decide (rowKey x = rowKey r))) =
          List.map id (store.filter (fun x => !decide (rowKey x = rowKey r))) := by
        apply List.map_congr_left
        intro x hx
        have := (List.mem_filter.mp hx).2
        have hne : ¬(rowKey x = rowKey r) := by
          simpa using this
        rw [if_neg hne]
        rfl
      rw [hid, List.map_id]
    · rw [hup, List.length_map]
    · unfold keyCount
      rw [hfk]
      rfl
  · have hup : upsertRow store r = store ++ [r] := by
      unfold upsertRow
      rw [if_neg hany]
    have hnone : ∀ x ∈ store, ¬(rowKey x = rowKey r) := by
      intro x hx hkey
      exact hany (List.any_eq_true.mpr ⟨x, hx, decide_eq_true hkey⟩)
    have hfilnil : store.filter (fun x => decide (rowKey x = rowKey r)) = [] := by
      apply List.filter_eq_nil_iff.mpr
      intro x hx
      simpa using hnone x hx
    have hfk : (upsertRow store r).filter (fun x => decide (rowKey x = rowKey r)) = [r] := by
      rw [hup, List.filter_append, hfilnil]
      simp
    refine ⟨hfk, ?_, ?_, ?_⟩
    · rw [hup, List.filter_append]
      simp
    · rw [hup, List.length_append]
      simp
    · unfold keyCount
      rw [hfk]
      rfl

/-- C2: writing a finalized accumulator twice with the same `FunnelKey`
(over a store that respects the uniqueness constraint at that key) leaves
exactly one row for that key, equal to the latest (stamped) write; rows
with other keys are untouched and no row is deleted. -/
theorem upsert_twice_one_row (store : List FunnelRow) (r r' : FunnelRow)
    (hk : rowKey r = rowKey r')
    (hinv : keyCount store (rowKey r') ≤ 1) :
    (writeRow (writeRow store r) r').filter (fun x => decide (rowKey x = rowKey r')) =
      [stampRow r'] ∧
    keyCount (writeRow (writeRow store r) r') (rowKey r') = 1 ∧
    (writeRow (writeRow store r) r').filter (fun x => !decide (rowKey x = rowKey r')) =
      store.filter (fun x => !decide (rowKey x = rowKey r')) ∧
    store.length ≤ (writeRow (writeRow store r) r').length := by
  have hk1 : rowKey (stampRow r) = rowKey r' := by rw [rowKey_stampRow, hk]
  have hk2 : rowKey (stampRow r') = rowKey r' := rowKey_stampRow r'
  have h1 := upsertRow_spec store (stampRow r) (by rw [hk1]; exact hinv)
  rw [hk1] at h1
  have h2 := upsertRow_spec (upsertRow store (stampRow r)) (stampRow r') (by
    rw [hk2]
    have := h1.2.2.2
    omega)
  rw [hk2] at h2
  have hw : writeRow (writeRow store r) r' = upsertRow (upsertRow store (stampRow r)) (stampRow r') := rfl
  rw [hw]
  refine ⟨h2.1, ?_, ?_, ?_⟩
  · unfold keyCount
    rw [h2.1]
    rfl
  · rw [h2.2.1]
    exact h1.2.1
  · calc store.length ≤ (upsertRow store (stampRow r)).length := h1.2.2.1
      _ ≤ (upsertRow (upsertRow store (stampRow r)) (stampRow r')).length := h2.2.2.1

/-- Witness for the C2 theorem: two writes of rows sharing a key into the
empty store. -/
theorem upsert_twice_one_row_witness :
    (writeRow (writeRow []
        ⟨"1", "Funnel #1", "2026-10-04", "2026-10-11",
          some 0, some 0, some 0, some 0, some 0, none, none⟩)
        ⟨"1", "Funnel #1", "2026-10-04", "2026-10-11",
          some 5, some 0, some 0, some 0, some 0, none, none⟩).filter
      (fun x => decide (rowKey x = rowKey
        ⟨"1", "Funnel #1", "2026-10-04", "2026-10-11",
          some 5, some 0, some 0, some 0, some 0, none, none⟩)) =
      [stampRow ⟨"1", "Funnel #1", "2026-10-04", "2026-10-11",
          some 5, some 0, some 0, some 0, some 0, none, none⟩] :=
  (upsert_twice_one_row []
    ⟨"1", "Funnel #1", "2026-10-04", "2026-10-11",
      some 0, some 0, some 0, some 0, some 0, none, none⟩
    ⟨"1", "Funnel #1", "2026-10-04", "2026-10-11",
      some 5, some 0, some 0, some 0, some 0, none, none⟩
    rfl (by decide)).1

/-! ## Lemmas about the aggregation fold -/

theorem mem_applyAt {p : String × FunnelAcc} {m : List (String × FunnelAcc)}
    {fid : String} {f : FunnelAcc → FunnelAcc} (hp : p ∈ applyAt m fid f) :
    p ∈ m ∨ ∃ q, q ∈ m ∧ p = (q.1, f q.2) := by
  induction m with
  | nil => simp [applyAt] at hp
  | cons hd tl ih =>
    obtain ⟨k, a⟩ := hd
    simp only [applyAt] at hp
    by_cases h : k = fid
    · rw [if_pos h] at hp
      rcases List.mem_cons.mp hp with h1 | h1
      · exact Or.inr ⟨(k, a), List.mem_cons_self _ _, by rw [h1]⟩
      · exact Or.inl (List.mem_cons_of_mem _ h1)
    · rw [if_neg h] at hp
      rcases List.mem_cons.mp hp with h1 | h1
      · exact Or.inl (by rw [h1]; exact List.mem_cons_self _ _)
      · rcases ih h1 with h2 | ⟨q, hq, he⟩
        · exact Or.inl (List.mem_cons_of_mem _ h2)
        · exact Or.inr ⟨q, List.mem_cons_of_mem _ hq, he⟩

theorem foldl_acc_pred (P : FunnelAcc → Prop) (cs : List CampaignRef) (sd ed : String)
    (hadd : ∀ name i a, P a → P (addInsight name i a))
    (hinit : ∀ fid, P (initAcc fid sd ed)) :
    ∀ (insights : List Insight) (m : List (String × FunnelAcc)),
      (∀ p ∈ m, P p.2) → ∀ p ∈ insights.foldl (foldStep cs sd ed) m, P p.2 := by
  intro insights
  induction insights with
  | nil => exact fun m hm p hp => hm p hp
  | cons i tl ih =>
    intro m hm p hp
    rw [List.foldl_cons] at hp
    refine ih _ ?_ p hp
    intro q hq
    simp only [foldStep] at hq
    split at hq
    · rcases mem_applyAt hq with h1 | ⟨q', hq', he⟩
      · exact hm q h1
      · rw [he]
        exact hadd _ _ _ (hm q' hq')
    · rcases List.mem_append.mp hq with h1 | h1
      · exact hm q h1
      · rcases List.mem_singleton.mp h1 with rfl
        exact hadd _ _ _ (hinit _)

theorem frequency_aggregateRaw (cs : List CampaignRef) (sd ed : String)
    (insights : List Insight) :
    ∀ p ∈ aggregateRaw cs sd ed insights, (p : String × FunnelAcc).2.frequency = some 0 :=
  foldl_acc_pred (fun a => a.frequency = some 0) cs sd ed
    (fun _ _ _ h => h) (fun _ => rfl) insights [] (by simp)

/-- C4: for every produced funnel row, after finalization `frequency`
equals `impressions / reach` when `reach > 0`, and `frequency` equals `0`
when `reach = 0`. -/
theorem frequency_spec (cs : List CampaignRef) (insights : List Insight) (sd ed : String)
    (row : FunnelRow) (r : ℚ)
    (hmem : row ∈ fetchRows cs insights sd ed) (hr : row.reach = some r) :
    (0 < r → row.frequency = jsDiv row.impressions row.reach) ∧
    (r = 0 → row.frequency = some 0) := by
  rcases List.mem_map.mp hmem with ⟨p, hp, hrow⟩
  have hfreq : p.2.frequency = some 0 := frequency_aggregateRaw cs sd ed insights p hp
  have hre : (finalize p.2).reach = p.2.reach := rfl
  subst hrow
  rw [hre] at hr
  constructor
  · intro hpos
    have hgt : jsGtZero p.2.reach = true := by
      rw [hr]
      simpa [jsGtZero] using hpos
    simp [finalize, hgt]
  · intro h0
    have hgt : jsGtZero p.2.reach = false := by
      rw [hr, h0]
      simp [jsGtZero]
    simp [finalize, hgt, hfreq]

/-- Witness for the C4 theorem: an insight record with reach `"0"` gives a
row whose finalized frequency is `0`. -/
theorem frequency_spec_witness :
    (finalize (addInsight "Funnel 2" ⟨"c", some "Funnel 2", none, none, some "0", none⟩
        (initAcc "2" "2026-10-04" "2026-10-11"))).frequency = some 0 :=
  (frequency_spec [] [⟨"c", some "Funnel 2", none, none, some "0", none⟩]
    "2026-10-04" "2026-10-11" _ 0
    (by with_unfolding_all decide) (by with_unfolding_all decide)).2 rfl

/-- C5: for every produced funnel row, after finalization `link_ctr`
equals `(ads_link_clicks / impressions) * 100` when `impressions > 0`,
and is omitted from the persisted shape when `impressions = 0`. -/
theorem linkctr_spec (cs : List CampaignRef) (insights : List Insight) (sd ed : String)
    (row : FunnelRow) (n : ℚ)
    (hmem : row ∈ fetchRows cs insights sd ed) (hn : row.impressions = some n) :
    (0 < n → row.link_ctr = some (jsMul (jsDiv row.ads_link_clicks row.impressions) (some 100))) ∧
    (n = 0 → row.link_ctr = none) := by
  rcases List.mem_map.mp hmem with ⟨p, hp, hrow⟩
  have him : (finalize p.2).impressions = p.2.impressions := rfl
  subst hrow
  rw [him] at hn
  constructor
  · intro hpos
    have hgt : jsGtZero p.2.impressions = true := by
      rw [hn]
      simpa [jsGtZero] using hpos
    simp [finalize, hgt]
  · intro h0
    have hgt : jsGtZero p.2.impressions = false := by
      rw [hn, h0]
      simp [jsGtZero]
    simp [finalize, hgt]

/-- Witness for the C5 theorem: an insight record with impressions `"2"`
and clicks `"5"` gives a row whose finalized click-through rate is the
claimed quotient times 100. -/
theorem linkctr_spec_witness :
    (finalize (addInsight "Funnel 3" ⟨"c", some "Funnel 3", none, some "2", none, some "5"⟩
        (initAcc "3" "2026-10-04" "2026-10-11"))).link_ctr =
      some (jsMul (jsDiv
        (finalize (addInsight "Funnel 3" ⟨"c", some "Funnel 3", none, some "2", none, some "5"⟩
          (initAcc "3" "2026-10-04" "2026-10-11"))).ads_link_clicks
        (finalize (addInsight "Funnel 3" ⟨"c", some "Funnel 3", none, some "2", none, some "5"⟩
          (initAcc "3" "2026-10-04" "2026-10-11"))).impressions) (some 100)) :=
  (linkctr_spec [] [⟨"c", some "Funnel 3", none, some "2", none, some "5"⟩]
    "2026-10-04" "2026-10-11" _ 2
    (by with_unfolding_all decide) (by with_unfolding_all decide)).1
    (by norm_num)

/-! ## Lemmas about per-funnel lookup in the aggregation map -/

theorem lookupAcc_cons (k : String) (a : FunnelAcc) (m : List (String × FunnelAcc))
    (fid : String) :
    lookupAcc ((k, a) :: m) fid = if k = fid then some a else lookupAcc m fid := by
  by_cases h : k = fid <;> simp [lookupAcc, List.find?_cons, h]

theorem foldStep_eq (cs : List CampaignRef) (sd ed : String)
    (m : List (String × FunnelAcc)) (i : Insight) :
    foldStep cs sd ed m i =
      if hasKey m (extractFunnelId (resolveName cs i)) then
        applyAt m (extractFunnelId (resolveName cs i)) (addInsight (resolveName cs i) i)
      else
        m ++ [(extractFunnelId (resolveName cs i),
          addInsight (resolveName cs i) i
            (initAcc (extractFunnelId (resolveName cs i)) sd ed))] := rfl

theorem lookupAcc_applyAt_self (m : List (String × FunnelAcc)) (fid : String)
    (f : FunnelAcc → FunnelAcc) :
    lookupAcc (applyAt m fid f) fid = (lookupAcc m fid).map f := by
  induction m with
  | nil => rfl
  | cons hd tl ih =>
    obtain ⟨k, a⟩ := hd
    simp only [applyAt]
    by_cases h : k = fid
    · rw [if_pos h, lookupAcc_cons, lookupAcc_cons, if_pos h, if_pos h]
      rfl
    · rw [if_neg h, lookupAcc_cons, lookupAcc_cons, if_neg h, if_neg h, ih]

theorem lookupAcc_applyAt_ne (m : List (String × FunnelAcc)) (k fid : String)
    (f : FunnelAcc → FunnelAcc) (h : k ≠ fid) :
    lookupAcc (applyAt m k f) fid = lookupAcc m fid := by
  induction m with
  | nil => rfl
  | cons hd tl ih =>
    obtain ⟨k', a⟩ := hd
    simp only [applyAt]
    by_cases h' : k' = k
    · rw [if_pos h', lookupAcc_cons, lookupAcc_cons]
      have : ¬(k' = fid) := by rw [h']; exact h
      rw [if_neg this, if_neg this]
    · rw [if_neg h', lookupAcc_cons, lookupAcc_cons, ih]

theorem lookupAcc_append_ne (m : List (String × FunnelAcc)) (k fid : String)
    (b : FunnelAcc) (h : k ≠ fid) :
    lookupAcc (m ++ [(k, b)]) fid = lookupAcc m fid := by
  induction m with
  | nil =>
    show lookupAcc [(k, b)] fid = lookupAcc [] fid
    rw [lookupAcc_cons, if_neg h]
  | cons hd tl ih =>
    obtain ⟨k', a⟩ := hd
    rw [List.cons_append, lookupAcc_cons, lookupAcc_cons, ih]

theorem lookupAcc_append_self (m : List (String × FunnelAcc)) (fid : String)
    (b : FunnelAcc) (h : lookupAcc m fid = none) :
    lookupAcc (m ++ [(fid, b)]) fid = some b := by
  induction m with
  | nil =>
    show lookupAcc [(fid, b)] fid = some b
    rw [lookupAcc_cons, if_pos rfl]
  | cons hd tl ih =>
    obtain ⟨k', a⟩ := hd
    rw [lookupAcc_cons] at h
    by_cases h' : k' = fid
    · rw [if_pos h'] at h
      exact absurd h (by simp)
    · rw [if_neg h'] at h
      rw [List.cons_append, lookupAcc_cons, if_neg h', ih h]

theorem hasKey_of_lookupAcc_some {m : List (String × FunnelAcc)} {fid : String}
    {a : FunnelAcc} (h : lookupAcc m fid = some a) : hasKey m fid = true := by
  unfold lookupAcc at h
  cases hf : m.find? (fun p => decide (p.1 = fid)) with
  | none => rw [hf] at h; exact absurd h (by simp)
  | some p =>
    have hpp := List.find?_some hf
    exact List.any_eq_true.mpr ⟨p, List.mem_of_find?_eq_some hf, hpp⟩

theorem hasKey_false_of_lookupAcc_none {m : List (String × FunnelAcc)} {fid : String}
    (h : lookupAcc m fid = none) : hasKey m fid = false := by
  cases hk : hasKey m fid with
  | false => rfl
  | true =>
    rcases List.any_eq_true.mp hk with ⟨p, hp, hpp⟩
    have : (m.find? (fun p => decide (p.1 = fid))).isSome = true :=
      List.find?_isSome.mpr ⟨p, hp, hpp⟩
    unfold lookupAcc at h
    cases hf : m.find? (fun p => decide (p.1 = fid)) with
    | none => rw [hf] at this; exact absurd this (by simp)
    | some q => rw [hf] at h; exact absurd h (by simp)

theorem matchesFid_true_iff (cs : List CampaignRef) (fid : String) (i : Insight) :
    matchesFid cs fid i = true ↔ extractFunnelId (resolveName cs i) = fid := by
  simp [matchesFid]

theorem lookup_foldl_some (cs : List CampaignRef) (sd ed fid : String) :
    ∀ (insights : List Insight) (m : List (String × FunnelAcc)) (a : FunnelAcc),
      lookupAcc m fid = some a →
      (lookupAcc (insights.foldl (foldStep cs sd ed) m) fid).map accTotals =
        some ((insights.filter (matchesFid cs fid)).foldl addContrib (accTotals a)) := by
  intro insights
  induction insights with
  | nil =>
    intro m a h
    simp [h]
  | cons i tl ih =>
    intro m a h
    rw [List.foldl_cons]
    by_cases hm : matchesFid cs fid i = true
    · have hfid : extractFunnelId (resolveName cs i) = fid := (matchesFid_true_iff cs fid i).mp hm
      have hkey : hasKey m fid = true := hasKey_of_lookupAcc_some h
      have hstep : foldStep cs sd ed m i = applyAt m fid (addInsight (resolveName cs i) i) := by
        rw [foldStep_eq, hfid, if_pos hkey]
      have hlook : lookupAcc (foldStep cs sd ed m i) fid =
          some (addInsight (resolveName cs i) i a) := by
        rw [hstep, lookupAcc_applyAt_self, h]
        rfl
      rw [List.filter_cons_of_pos hm, List.foldl_cons, ih (foldStep cs sd ed m i) _ hlook]
      rfl
    · have hfid : extractFunnelId (resolveName cs i) ≠ fid := fun hc =>
        hm ((matchesFid_true_iff cs fid i).mpr hc)
      have hlook : lookupAcc (foldStep cs sd ed m i) fid = some a := by
        rw [foldStep_eq]
        by_cases hk : hasKey m (extractFunnelId (resolveName cs i)) = true
        · rw [if_pos hk, lookupAcc_applyAt_ne _ _ _ _ hfid, h]
        · rw [if_neg hk, lookupAcc_append_ne _ _ _ _ hfid, h]
      rw [List.filter_cons_of_neg hm]
      exact ih _ _ hlook

theorem lookup_foldl_none (cs : List CampaignRef) (sd ed fid : String) :
    ∀ (insights : List Insight) (m : List (String × FunnelAcc)),
      lookupAcc m fid = none →
      (lookupAcc (insights.foldl (foldStep cs sd ed) m) fid).map accTotals =
        if (insights.filter (matchesFid cs fid)).isEmpty then none
        else some ((insights.filter (matchesFid cs fid)).foldl addContrib zeroTotals) := by
  intro insights
  induction insights with
  | nil =>
    intro m h
    simp [h]
  | cons i tl ih =>
    intro m h
    rw [List.foldl_cons]
    by_cases hm : matchesFid cs fid i = true
    · have hfid : extractFunnelId (resolveName cs i) = fid := (matchesFid_true_iff cs fid i).mp hm
      have hkey : hasKey m fid = false := hasKey_false_of_lookupAcc_none h
      have hstep : foldStep cs sd ed m i =
          m ++ [(fid, addInsight (resolveName cs i) i (initAcc fid sd ed))] := by
        rw [foldStep_eq, hfid, if_neg (by rw [hkey]; simp)]
      have hlook : lookupAcc (foldStep cs sd ed m i) fid =
          some (addInsight (resolveName cs i) i (initAcc fid sd ed)) := by
        rw [hstep]
        exact lookupAcc_append_self m fid _ h
      rw [List.filter_cons_of_pos hm,
        lookup_foldl_some cs sd ed fid tl _ _ hlook]
      simp only [List.isEmpty_cons, Bool.false_eq_true, if_false, List.foldl_cons]
      rfl
    · have hfid : extractFunnelId (resolveName cs i) ≠ fid := fun hc =>
        hm ((matchesFid_true_iff cs fid i).mpr hc)
      have hlook : lookupAcc (foldStep cs sd ed m i) fid = none := by
        rw [foldStep_eq]
        by_cases hk : hasKey m (extractFunnelId (resolveName cs i)) = true
        · rw [if_pos hk, lookupAcc_applyAt_ne _ _ _ _ hfid, h]
        · rw [if_neg hk, lookupAcc_append_ne _ _ _ _ hfid, h]
      rw [List.filter_cons_of_neg hm]
      exact ih _ hlook

theorem totals_eq (cs : List CampaignRef) (sd ed : String) (insights : List Insight)
    (fid : String) :
    (lookupAcc (aggregateRaw cs sd ed insights) fid).map accTotals =
      if (insights.filter (matchesFid cs fid)).isEmpty then none
      else some ((insights.filter (matchesFid cs fid)).foldl addContrib zeroTotals) :=
  lookup_foldl_none cs sd ed fid insights [] rfl

theorem foldl_addContrib_eq (l : List Insight) :
    ∀ t : JsNum × JsNum × JsNum × JsNum,
      l.foldl addContrib t =
        ((l.map (fun i => parseFloatField i.spend)).foldl jsAdd t.1,
         (l.map (fun i => parseIntField i.impressions)).foldl jsAdd t.2.1,
         (l.map (fun i => parseIntField i.reach)).foldl jsAdd t.2.2.1,
         (l.map (fun i => parseIntField i.clicks)).foldl jsAdd t.2.2.2) := by
  induction l with
  | nil => intro t; rfl
  | cons i tl ih =>
    intro t
    simp only [List.foldl_cons, List.map_cons]
    rw [ih]
    rfl

theorem jsAdd_right_comm (s a b : JsNum) : jsAdd (jsAdd s a) b = jsAdd (jsAdd s b) a := by
  cases s <;> cases a <;> cases b <;> simp [jsAdd, add_right_comm]

theorem addContrib_right_comm (t : JsNum × JsNum × JsNum × JsNum) (i j : Insight) :
    addContrib (addContrib t i) j = addContrib (addContrib t j) i := by
  dsimp only [addContrib]
  simp only [Prod.mk.injEq]
  exact ⟨jsAdd_right_comm _ _ _, jsAdd_right_comm _ _ _,
    jsAdd_right_comm _ _ _, jsAdd_right_comm _ _ _⟩

theorem foldl_addContrib_perm {l l' : List Insight} (h : l.Perm l') :
    ∀ t, l.foldl addContrib t = l'.foldl addContrib t := by
  induction h with
  | nil => intro t; rfl
  | cons x _ ih =>
    intro t
    simp only [List.foldl_cons]
    exact ih _
  | swap x y l =>
    intro t
    simp only [List.foldl_cons]
    rw [addContrib_right_comm]
  | trans _ _ ih1 ih2 =>
    intro t
    rw [ih1, ih2]

theorem perm_isEmpty_eq {α : Type} {l l' : List α} (h : l.Perm l') :
    l.isEmpty = l'.isEmpty := by
  have hl := h.length_eq
  cases l <;> cases l' <;> simp_all

/-- C1 (amended): for every funnel bucket, the accumulated `amount_spent`,
`impressions`, `reach` and `ads_link_clicks` are exactly the JS sums of
the parsed `spend`/`impressions`/`reach`/`clicks` fields of the insight
records classified into that bucket; an absent field contributes zero and
a record is never skipped; and the per-funnel totals are the same for
every input order.  (A present non-numeric field value does not contribute
zero: it makes the corresponding total `NaN`, which the sums here
propagate — see the counterexample to the claim as stated.) -/
theorem totals_are_sums (cs : List CampaignRef) (sd ed : String) (insights : List Insight)
    (fid : String) (acc : FunnelAcc)
    (h : lookupAcc (aggregateRaw cs sd ed insights) fid = some acc) :
    acc.amount_spent =
      jsSum ((insights.filter (matchesFid cs fid)).map (fun i => parseFloatField i.spend)) ∧
    acc.impressions =
      jsSum ((insights.filter (matchesFid cs fid)).map (fun i => parseIntField i.impressions)) ∧
    acc.reach =
      jsSum ((insights.filter (matchesFid cs fid)).map (fun i => parseIntField i.reach)) ∧
    acc.ads_link_clicks =
      jsSum ((insights.filter (matchesFid cs fid)).map (fun i => parseIntField i.clicks)) ∧
    parseFloatField none = some 0 ∧ parseIntField none = some 0 ∧
    ∀ insights' : List Insight, insights.Perm insights' →
      (lookupAcc (aggregateRaw cs sd ed insights') fid).map accTotals =
        some (accTotals acc) := by
  have htot := totals_eq cs sd ed insights fid
  rw [h] at htot
  simp only [Option.map_some'] at htot
  by_cases hemp : (insights.filter (matchesFid cs fid)).isEmpty = true
  · rw [if_pos hemp] at htot
    exact absurd htot (by simp)
  · rw [if_neg hemp] at htot
    have hacct : accTotals acc =
        (insights.filter (matchesFid cs fid)).foldl addContrib zeroTotals :=
      Option.some.inj htot
    have hcomp := foldl_addContrib_eq (insights.filter (matchesFid cs fid)) zeroTotals
    rw [hcomp] at hacct
    refine ⟨?_, ?_, ?_, ?_, rfl, rfl, ?_⟩
    · have := congrArg (fun t => t.1) hacct
      simpa [accTotals, zeroTotals, jsSum] using this
    · have := congrArg (fun t => t.2.1) hacct
      simpa [accTotals, zeroTotals, jsSum] using this
    · have := congrArg (fun t => t.2.2.1) hacct
      simpa [accTotals, zeroTotals, jsSum] using this
    · have := congrArg (fun t => t.2.2.2) hacct
      simpa [accTotals, zeroTotals, jsSum] using this
    · intro insights' hperm
      have htot' := totals_eq cs sd ed insights' fid
      have hfp : (insights.filter (matchesFid cs fid)).Perm
          (insights'.filter (matchesFid cs fid)) := hperm.filter _
      have hemp' : (insights'.filter (matchesFid cs fid)).isEmpty = false := by
        rw [← perm_isEmpty_eq hfp]
        cases hx : (insights.filter (matchesFid cs fid)).isEmpty with
        | false => rfl
        | true => exact absurd hx hemp
      rw [htot', if_neg (by rw [hemp']; simp), ← foldl_addContrib_perm hfp zeroTotals]
      rw [← hcomp] at hacct
      rw [← hacct]

set_option maxRecDepth 8192 in
/-- Witness for the C1 theorem: two campaigns of funnel "1" summed. -/
theorem totals_are_sums_witness :
    (addInsight "Funnel 1 - Mid"
        ⟨"b", some "Funnel 1 - Mid", some "50", some "500", some "250", some "10"⟩
        (addInsight "Funnel 1 - Top"
          ⟨"a", some "Funnel 1 - Top", some "100", some "1000", some "500", some "20"⟩
          (initAcc "1" "2026-10-04" "2026-10-11"))).amount_spent =
      jsSum ((([⟨"a", some "Funnel 1 - Top", some "100", some "1000", some "500", some "20"⟩,
          ⟨"b", some "Funnel 1 - Mid", some "50", some "500", some "250", some "10"⟩] :
            List Insight).filter (matchesFid [] "1")).map (fun i => parseFloatField i.spend)) ∧
    parseFloatField none = some 0 ∧ parseIntField none = some 0 := by
  have h := totals_are_sums [] "2026-10-04" "2026-10-11"
    [⟨"a", some "Funnel 1 - Top", some "100", some "1000", some "500", some "20"⟩,
     ⟨"b", some "Funnel 1 - Mid", some "50", some "500", some "250", some "10"⟩] "1"
    (addInsight "Funnel 1 - Mid"
      ⟨"b", some "Funnel 1 - Mid", some "50", some "500", some "250", some "10"⟩
      (addInsight "Funnel 1 - Top"
        ⟨"a", some "Funnel 1 - Top", some "100", some "1000", some "500", some "20"⟩
        (initAcc "1" "2026-10-04" "2026-10-11")))
    (by with_unfolding_all decide)
  exact ⟨h.1, h.2.2.2.2.1, h.2.2.2.2.2.1⟩

/-- C1, counterexample to the claim as stated: a present non-numeric
`spend` value ("abc") does not contribute zero to the fold — it makes the
accumulated `amount_spent` `NaN` (`none` in this model), not `0`. -/
theorem nonnumeric_field_not_zero :
    (lookupAcc (aggregateRaw [] "2026-10-04" "2026-10-11"
        [⟨"c1", some "Funnel 1", some "abc", some "10", some "5", some "2"⟩]) "1").map
      (fun a => a.amount_spent) = some none ∧
    some (none : JsNum) ≠ some (some (0 : ℚ)) := by
  constructor
  · with_unfolding_all decide
  · simp

/-! ## Lemmas about the funnel classifier -/

theorem ciStrip_sound :
    ∀ (tok l rest : List Char), ciStrip tok l = some rest →
      ∃ p, l = p ++ rest ∧ p.map Char.toLower = tok := by
  intro tok
  induction tok with
  | nil =>
    intro l rest h
    simp only [ciStrip, Option.some.injEq] at h
    exact ⟨[], by simp [h], rfl⟩
  | cons t ts ih =>
    intro l rest h
    cases l with
    | nil => exact absurd h (by simp [ciStrip])
    | cons c cs =>
      simp only [ciStrip] at h
      by_cases hc : c.toLower = t
      · rw [if_pos hc] at h
        obtain ⟨p, hcs, hp⟩ := ih cs rest h
        exact ⟨c :: p, by simp [hcs], by simp [hp, hc]⟩
      · rw [if_neg hc] at h
        exact absurd h (by simp)

theorem ciStrip_complete :
    ∀ (p l : List Char), ciStrip (p.map Char.toLower) (p ++ l) = some l := by
  intro p
  induction p with
  | nil => intro l; rfl
  | cons c p' ih =>
    intro l
    simp only [List.map_cons, List.cons_append, ciStrip, if_pos rfl]
    exact ih l

theorem isDigit_not_isJsWs {c : Char} (h : c.isDigit = true) : isJsWs c = false := by
  have h1 : c ≠ ' ' := by rintro rfl; exact absurd h (by decide)
  have h2 : c ≠ '\t' := by rintro rfl; exact absurd h (by decide)
  have h3 : c ≠ '\n' := by rintro rfl; exact absurd h (by decide)
  have h4 : c ≠ '\x0b' := by rintro rfl; exact absurd h (by decide)
  have h5 : c ≠ '\x0c' := by rintro rfl; exact absurd h (by decide)
  have h6 : c ≠ '\r' := by rintro rfl; exact absurd h (by decide)
  simp [isJsWs, h1, h2, h3, h4, h5, h6]

theorem dropWhile_append_all {p : Char → Bool} :
    ∀ {ws l : List Char}, (∀ c ∈ ws, p c = true) →
      List.dropWhile p (ws ++ l) = List.dropWhile p l := by
  intro ws
  induction ws with
  | nil => intro l _; rfl
  | cons w ws' ih =>
    intro l h
    rw [List.cons_append, List.dropWhile_cons_of_pos (h w (List.mem_cons_self _ _))]
    exact ih fun c hc => h c (List.mem_cons_of_mem _ hc)

theorem takeWhile_append_all {p : Char → Bool} :
    ∀ {ds l : List Char}, (∀ c ∈ ds, p c = true) →
      List.takeWhile p (ds ++ l) = ds ++ List.takeWhile p l := by
  intro ds
  induction ds with
  | nil => intro l _; rfl
  | cons d ds' ih =>
    intro l h
    rw [List.cons_append, List.takeWhile_cons_of_pos (h d (List.mem_cons_self _ _))]
    rw [ih fun c hc => h c (List.mem_cons_of_mem _ hc), List.cons_append]

theorem dropWhile_head_false {p : Char → Bool} :
    ∀ {l c cs}, List.dropWhile p l = c :: cs → p c = false := by
  intro l
  induction l with
  | nil => intro c cs h; exact absurd h (by simp)
  | cons a l' ih =>
    intro c cs h
    by_cases ha : p a = true
    · rw [List.dropWhile_cons_of_pos ha] at h
      exact ih h
    · rw [List.dropWhile_cons_of_neg ha] at h
      obtain ⟨rfl, -⟩ := List.cons.inj h
      exact Bool.not_eq_true _ ▸ (by simpa using ha)

theorem tryMatchAt_sound {l ds : List Char} (h : tryMatchAt l = some ds) :
    ∃ tok ws rest,
      l = tok ++ ws ++ ds ++ rest ∧ CiFunnel tok ∧ AllJsWs ws ∧
      ds ≠ [] ∧ AllDigits ds ∧ ∀ c cs, rest = c :: cs → c.isDigit = false := by
  unfold tryMatchAt at h
  cases hcs : ciStrip funnelTok l with
  | none => rw [hcs] at h; exact absurd h (by simp)
  | some rest0 =>
    rw [hcs] at h
    simp only at h
    by_cases hemp : (List.takeWhile Char.isDigit (List.dropWhile isJsWs rest0)).isEmpty = true
    · rw [if_pos hemp] at h
      exact absurd h (by simp)
    · rw [if_neg hemp] at h
      obtain ⟨tok, hl, htok⟩ := ciStrip_sound funnelTok l rest0 hcs
      have hds : ds = List.takeWhile Char.isDigit (List.dropWhile isJsWs rest0) :=
        (Option.some.inj h).symm
      refine ⟨tok, List.takeWhile isJsWs rest0,
        List.dropWhile Char.isDigit (List.dropWhile isJsWs rest0), ?_, htok, ?_, ?_, ?_, ?_⟩
      · rw [hl]
        have h1 : rest0 = List.takeWhile isJsWs rest0 ++ List.dropWhile isJsWs rest0 :=
          (List.takeWhile_append_dropWhile isJsWs rest0).symm
        have h2 : List.dropWhile isJsWs rest0 =
            ds ++ List.dropWhile Char.isDigit (List.dropWhile isJsWs rest0) := by
          rw [hds]
          exact (List.takeWhile_append_dropWhile Char.isDigit _).symm
        rw [List.append_assoc, List.append_assoc]
        rw [← h2, ← h1]
      · exact fun c hc => List.mem_takeWhile_imp hc
      · rw [hds]
        intro hnil
        rw [hnil] at hemp
        exact hemp rfl
      · rw [hds]
        exact fun c hc => List.mem_takeWhile_imp hc
      · intro c cs hrest
        exact dropWhile_head_false hrest

theorem tryMatchAt_complete (tok ws ds rest : List Char)
    (htok : CiFunnel tok) (hws : AllJsWs ws) (hne : ds ≠ []) (hds : AllDigits ds) :
    ∃ ds', tryMatchAt (tok ++ ws ++ ds ++ rest) = some ds' := by
  cases ds with
  | nil => exact absurd rfl hne
  | cons d ds0 =>
    have hd : d.isDigit = true := hds d (List.mem_cons_self _ _)
    have hstrip : ciStrip funnelTok (tok ++ (ws ++ (d :: ds0) ++ rest)) =
        some (ws ++ (d :: ds0) ++ rest) := by
      have := ciStrip_complete tok (ws ++ (d :: ds0) ++ rest)
      rw [htok] at this
      exact this
    refine ⟨(d :: ds0) ++ List.takeWhile Char.isDigit rest, ?_⟩
    unfold tryMatchAt
    rw [show tok ++ ws ++ (d :: ds0) ++ rest = tok ++ (ws ++ (d :: ds0) ++ rest) by
      simp [List.append_assoc]]
    rw [hstrip]
    simp only
    have hdrop : List.dropWhile isJsWs (ws ++ (d :: ds0) ++ rest) =
        (d :: ds0) ++ rest := by
      rw [List.append_assoc, dropWhile_append_all hws, List.cons_append,
        List.dropWhile_cons_of_neg (by rw [isDigit_not_isJsWs hd]; simp)]
    have htake : List.takeWhile Char.isDigit ((d :: ds0) ++ rest) =
        (d :: ds0) ++ List.takeWhile Char.isDigit rest :=
      takeWhile_append_all hds
    rw [hdrop, htake]
    rw [if_neg (by simp)]

theorem hasMatch_of_captured {l ds : List Char} (h : CapturedMatch l ds) :
    HasFunnelMatch l := by
  obtain ⟨pre, tok, ws, rest, hl, htok, hws, hne, hds, -⟩ := h
  exact ⟨pre, tok, ws, ds, rest, hl, htok, hws, hne, hds⟩

theorem findFunnel_sound :
    ∀ {l ds : List Char}, findFunnel l = some ds → CapturedMatch l ds := by
  intro l
  induction l with
  | nil => intro ds h; exact absurd h (by simp [findFunnel])
  | cons c cs ih =>
    intro ds h
    unfold findFunnel at h
    cases htry : tryMatchAt (c :: cs) with
    | some ds0 =>
      rw [htry] at h
      obtain rfl : ds0 = ds := Option.some.inj h
      obtain ⟨tok, ws, rest, hl, htok, hws, hne, hds, hrest⟩ := tryMatchAt_sound htry
      exact ⟨[], tok, ws, rest, by simpa using hl, htok, hws, hne, hds, hrest⟩
    | none =>
      rw [htry] at h
      obtain ⟨pre, tok, ws, rest, hl, htok, hws, hne, hds, hrest⟩ := ih h
      exact ⟨c :: pre, tok, ws, rest, by simp [hl], htok, hws, hne, hds, hrest⟩

theorem findFunnel_isSome_of_match :
    ∀ {l : List Char}, HasFunnelMatch l → ∃ ds, findFunnel l = some ds := by
  intro l h
  obtain ⟨pre, tok, ws, ds, rest, hl, htok, hws, hne, hds⟩ := h
  induction pre generalizing l with
  | nil =>
    obtain ⟨ds', hds'⟩ := tryMatchAt_complete tok ws ds rest htok hws hne hds
    have hl' : l = tok ++ ws ++ ds ++ rest := by simpa using hl
    subst hl'
    cases htokn : tok with
    | nil =>
      rw [htokn] at htok
      exact absurd htok (by simp [CiFunnel, funnelTok])
    | cons t ts =>
      rw [htokn] at hds'
      simp only [List.cons_append] at hds' ⊢
      refine ⟨ds', ?_⟩
      simp only [findFunnel, hds']
  | cons c pre' ih =>
    have hl' : l = c :: (pre' ++ tok ++ ws ++ ds ++ rest) := by
      rw [hl]
      simp
    subst hl'
    cases htry : tryMatchAt (c :: (pre' ++ tok ++ ws ++ ds ++ rest)) with
    | some ds0 =>
      exact ⟨ds0, by simp only [findFunnel, htry]⟩
    | none =>
      obtain ⟨ds', hds'⟩ := ih rfl
      refine ⟨ds', ?_⟩
      simp only [findFunnel, htry]
      exact hds'

theorem extract_unknown_iff (name : String) :
    extractFunnelId name = "unknown" ↔ ¬ HasFunnelMatch name.toList := by
  cases hf : findFunnel name.toList with
  | none =>
    constructor
    · intro _ hmatch
      obtain ⟨ds, hds⟩ := findFunnel_isSome_of_match hmatch
      rw [hf] at hds
      exact absurd hds (by simp)
    · intro _
      unfold extractFunnelId
      rw [hf]
  | some ds =>
    have he : extractFunnelId name = String.mk ds := by
      unfold extractFunnelId
      rw [hf]
    have hc := findFunnel_sound hf
    have hdig : AllDigits ds := by
      obtain ⟨-, -, -, -, -, -, -, -, h9, -⟩ := hc
      exact h9
    rw [he]
    constructor
    · intro habs
      exfalso
      have hdseq : ds = ("unknown" : String).data := congrArg String.data habs
      have hu : 'u' ∈ ds := by
        rw [hdseq]
        decide
      exact absurd (hdig 'u' hu) (by decide)
    · intro hno
      exact absurd (hasMatch_of_captured hc) hno

/-- C3: classification does a case-insensitive match for the token
"Funnel" followed by optional whitespace and one or more digits: the
result is `"unknown"` exactly when no such pattern occurs in the resolved
name, and otherwise it is the (greedily) captured digit sequence standing
right after the token in the name; in particular
"Spring Funnel 3 Retargeting" maps to "3", "Brand Awareness" maps to
"unknown", and "FUNNEL7" maps to "7". -/
theorem classification_spec :
    extractFunnelId "Spring Funnel 3 Retargeting" = "3" ∧
    extractFunnelId "Brand Awareness" = "unknown" ∧
    extractFunnelId "FUNNEL7" = "7" ∧
    (∀ name : String, extractFunnelId name = "unknown" ↔ ¬ HasFunnelMatch name.toList) ∧
    (∀ (name : String) (ds : List Char), findFunnel name.toList = some ds →
      extractFunnelId name = String.mk ds ∧ CapturedMatch name.toList ds) := by
  refine ⟨by decide, by decide, by decide, extract_unknown_iff, ?_⟩
  intro name ds h
  constructor
  · unfold extractFunnelId
    rw [h]
  · exact findFunnel_sound h

/-- Witness for the C3 theorem: the captured-match conjunct applied to
"FUNNEL7". -/
theorem classification_spec_witness :
    extractFunnelId "FUNNEL7" = String.mk ['7'] ∧ CapturedMatch "FUNNEL7".toList ['7'] :=
  classification_spec.2.2.2.2 "FUNNEL7" ['7'] (by decide)
